import Mathlib

/-!
# Verification of `cmd/buildah/mount.go` (`mountCmd`)

Shallow embedding of the buildah `mount` subcommand orchestrator.

External collaborators (`buildahcli.VerifyFlagsArgsOrder`, `getStore`,
`openBuilder`, `openBuilders`, the per-container `Mount`/`Mounted`
operations and `os.Geteuid`) are modelled as fields of an `Env`
record: each is an `Except`-valued result, exactly the shape of the Go
`(value, error)` returns the command consumes.

Side effects (`fmt.Printf` to stdout, `fmt.Fprintln(os.Stderr, ...)`,
and each collaborator call) are recorded in order in a single event
trace, so that the relative order of stdout lines, stderr diagnostics
and collaborator calls is part of the model.
-/

/-- A collaborator-level Go `error` value (its message). -/
abbrev GoErr := String

/-- The graph-driver store handle; only `GraphDriverName()` is consumed. -/
structure Store where
  GraphDriverName : String
deriving DecidableEq

/-- Per-container builder handle: the fields and methods `mountCmd` consumes.
`mount` embeds `builder.Mount(label)`, `mounted` embeds `builder.Mounted()`. -/
structure Builder where
  Container : String
  MountLabel : String
  MountPoint : String
  mount : String → Except GoErr String
  mounted : Except GoErr Bool

/-- Errors built or passed through by `mountCmd`.
`raw` is a collaborator error returned unchanged (the `return err` cases);
the other constructors mirror the `errors.Errorf` / `errors.Wrapf` calls. -/
inductive CmdErr where
  /-- a collaborator error returned without wrapping -/
  | raw (e : GoErr)
  /-- the error `errors.Errorf("cannot mount using driver %s in rootless mode...")` -/
  | unsupportedMode (driver : String)
  /-- the error `errors.Wrapf(err, "error reading build container %q", name)` -/
  | readingContainer (name : String) (inner : GoErr)
  /-- the error `errors.Wrapf(err, "error mounting %q container %q", name, builder.Container)` -/
  | mountingContainer (name : String) (container : String) (inner : GoErr)
  /-- the error `errors.Wrapf(err, "error reading build containers")` -/
  | readingContainers (inner : GoErr)
deriving DecidableEq, Repr

/-- One observable step of an invocation: a collaborator call, a stdout
line (`fmt.Printf`), or a stderr diagnostic (`fmt.Fprintln(os.Stderr, ...)`). -/
inductive Ev where
  | callOpenBuilder (name : String)
  | callMount (container : String) (label : String)
  | callMounted (container : String)
  | outLine (s : String)
  | errPrint (e : CmdErr)
deriving DecidableEq, Repr

/-- The `jsonMount` struct: JSON keys `container` (with `omitempty`, so the
zero value `""` is omitted from the rendered document) and `mountPoint`. -/
structure jsonMount where
  Container : String
  MountPoint : String
deriving DecidableEq, Repr

/-- The collaborators of one `mountCmd` invocation. -/
structure Env where
  /-- the result of `os.Geteuid()` -/
  euid : Nat
  /-- the result of `buildahcli.VerifyFlagsArgsOrder(args)` -/
  verifyFlagsArgsOrder : List String → Except GoErr Unit
  /-- the result of `getStore(c)` -/
  getStore : Except GoErr Store
  /-- the result of `openBuilder(getContext(), store, name)` -/
  openBuilder : String → Except GoErr Builder
  /-- the result of `openBuilders(store)` -/
  openBuilders : Except GoErr (List Builder)

/-- Accumulated observable state: the ordered event trace and the
`jsonMounts` slice being built up. -/
structure St where
  trace : List Ev
  jsonMounts : List jsonMount
deriving DecidableEq, Repr

/-- The empty starting state. -/
def St.init : St := ⟨[], []⟩

/-- Embeds `if lastError != nil { fmt.Fprintln(os.Stderr, lastError) }`. -/
def emitLast (st : St) (last : Option CmdErr) : St :=
  match last with
  | some e => { st with trace := st.trace ++ [.errPrint e] }
  | none => st

/-- The `for _, name := range args` loop of `mountCmd`: per target, resolve
the builder, mount it, report; on failure print the superseded pending
error and keep the new one, then continue. `multi` is `len(args) > 1`. -/
def mountLoop (env : Env) (multi outputJSON : Bool) :
    List String → St → Option CmdErr → St × Option CmdErr
  | [], st, last => (st, last)
  | name :: rest, st, last =>
    let st := { st with trace := st.trace ++ [.callOpenBuilder name] }
    match env.openBuilder name with
    | .error e =>
        mountLoop env multi outputJSON rest (emitLast st last)
          (some (.readingContainer name e))
    | .ok builder =>
      let st := { st with trace := st.trace ++ [.callMount builder.Container builder.MountLabel] }
      match builder.mount builder.MountLabel with
      | .error e =>
          mountLoop env multi outputJSON rest (emitLast st last)
            (some (.mountingContainer name builder.Container e))
      | .ok mountPoint =>
          let st :=
            if multi then
              if outputJSON then
                { st with jsonMounts := st.jsonMounts ++ [⟨name, mountPoint⟩] }
              else
                { st with trace := st.trace ++ [.outLine (name ++ " " ++ mountPoint)] }
            else
              if outputJSON then
                { st with jsonMounts := st.jsonMounts ++ [⟨"", mountPoint⟩] }
              else
                { st with trace := st.trace ++ [.outLine mountPoint] }
          mountLoop env multi outputJSON rest st last

/-- The `for _, builder := range builders` loop of the no-args branch:
query `Mounted()`; on query failure return the error at once (hard stop);
if mounted, report container and mount point. -/
def mountedLoop (outputJSON : Bool) : List Builder → St → St × Option CmdErr
  | [], st => (st, none)
  | b :: rest, st =>
    let st := { st with trace := st.trace ++ [.callMounted b.Container] }
    match b.mounted with
    | .error e => (st, some (.raw e))
    | .ok true =>
        let st :=
          if outputJSON then
            { st with jsonMounts := st.jsonMounts ++ [⟨b.Container, b.MountPoint⟩] }
          else
            { st with trace := st.trace ++ [.outLine (b.Container ++ " " ++ b.MountPoint)] }
        mountedLoop outputJSON rest st
    | .ok false => mountedLoop outputJSON rest st

/-- A single hexadecimal digit, lower case, as emitted by Go's JSON encoder. -/
def hexDigit (n : Nat) : Char :=
  if n < 10 then Char.ofNat (48 + n) else Char.ofNat (87 + n)

/-- Escaping of one character inside a JSON string, as Go's
`encoding/json` encoder does it with the default HTML escaping. -/
def jsonEscapeChar (c : Char) : String :=
  if c = '"' then "\\\""
  else if c = '\\' then "\\\\"
  else if c = '\n' then "\\n"
  else if c = '\r' then "\\r"
  else if c = '\t' then "\\t"
  else if c.toNat < 32 then
    "\\u00" ++ String.singleton (hexDigit (c.toNat / 16)) ++
      String.singleton (hexDigit (c.toNat % 16))
  else if c = '<' then "\\u003c"
  else if c = '>' then "\\u003e"
  else if c = '&' then "\\u0026"
  else if c.toNat = 8232 then "\\u2028"
  else if c.toNat = 8233 then "\\u2029"
  else String.singleton c

/-- A JSON string literal for `s`, as Go's `encoding/json` renders it. -/
def jsonQuote (s : String) : String :=
  "\"" ++ String.join (s.data.map jsonEscapeChar) ++ "\""

/-- One element of the array produced by
`json.MarshalIndent(jsonMounts, "", "    ")`: the struct fields in
declaration order, `container` dropped when empty (its `omitempty` tag). -/
def marshalJsonMount (m : jsonMount) : String :=
  if m.Container = "" then
    "    \x7b\n        \"mountPoint\": " ++ jsonQuote m.MountPoint ++ "\n    \x7d"
  else
    "    \x7b\n        \"container\": " ++ jsonQuote m.Container ++
      ",\n        \"mountPoint\": " ++ jsonQuote m.MountPoint ++ "\n    \x7d"

/-- Embeds `json.MarshalIndent(jsonMounts, "", "    ")` on the accumulated slice.
`jsonMounts` is declared `var jsonMounts []jsonMount` and only ever grown
by `append`, so the empty list corresponds exactly to a nil Go slice,
which `encoding/json` marshals as the JSON `null` token (not `[]`).
For these string-only structs the encoder cannot fail, so the marshal
step is total and the `if err != nil` branch after it is unreachable. -/
def marshalIndentJsonMounts : List jsonMount → String
  | [] => "null"
  | ms => "[\n" ++ String.intercalate ",\n" (ms.map marshalJsonMount) ++ "\n]"

/-- The tail of `mountCmd`: `if outputJSON { data, err := json.MarshalIndent(...);
...; fmt.Printf("%s\n", data) }` followed by `return lastError`. -/
def finishJSON (outputJSON : Bool) (st : St) (last : Option CmdErr) :
    St × Option CmdErr :=
  if outputJSON then
    ({ st with trace := st.trace ++ [.outLine (marshalIndentJsonMounts st.jsonMounts)] }, last)
  else (st, last)

/-- The whole `mountCmd(c, args, outputJSON)` function: flag-order check,
store acquisition, the rootless/graph-driver gate, then either the
explicit-target loop or the list-all-mounted loop, then JSON rendering,
returning the final side-effect state and the Go return value. -/
def mountCmd (env : Env) (args : List String) (outputJSON : Bool) :
    St × Option CmdErr :=
  match env.verifyFlagsArgsOrder args with
  | .error e => (St.init, some (.raw e))
  | .ok _ =>
    match env.getStore with
    | .error e => (St.init, some (.raw e))
    | .ok store =>
      if 0 < args.length then
        if env.euid != 0 && store.GraphDriverName != "vfs" then
          (St.init, some (.unsupportedMode store.GraphDriverName))
        else
          let r := mountLoop env (decide (1 < args.length)) outputJSON args St.init none
          finishJSON outputJSON r.1 r.2
      else
        match env.openBuilders with
        | .error e => (St.init, some (.readingContainers e))
        | .ok builders =>
          match mountedLoop outputJSON builders St.init with
          | (st, some e) => (st, some e)
          | (st, none) => finishJSON outputJSON st none

/-- The stderr diagnostics contained in a trace, in order. -/
def errPrints : List Ev → List CmdErr
  | [] => []
  | .errPrint e :: rest => e :: errPrints rest
  | .callOpenBuilder _ :: rest => errPrints rest
  | .callMount _ _ :: rest => errPrints rest
  | .callMounted _ :: rest => errPrints rest
  | .outLine _ :: rest => errPrints rest

/-- Is an event a stdout line? -/
def isOutLine : Ev → Bool
  | .outLine _ => true
  | _ => false

/-- A trace with its stdout lines removed (collaborator calls and stderr
diagnostics kept, in order). -/
def eraseOut (t : List Ev) : List Ev := t.filter (fun e => !isOutLine e)

/-- The outcome of resolving and mounting one explicit target: the mount
point on full success, `none` when resolution or the mount fails. -/
def targetMount (env : Env) (name : String) : Option String :=
  match env.openBuilder name with
  | .error _ => none
  | .ok b =>
    match b.mount b.MountLabel with
    | .error _ => none
    | .ok mp => some mp

/-- The mount point of a fully successful target (`""` as a default). -/
def mpOfD (env : Env) (name : String) : String := (targetMount env name).getD ""

/-- The sequence of failure records the explicit-target loop generates for
`names`: one per target whose resolution or mount fails, in order. -/
def loopFailures (env : Env) : List String → List CmdErr
  | [] => []
  | n :: rest =>
    match env.openBuilder n with
    | .error e => .readingContainer n e :: loopFailures env rest
    | .ok b =>
      match b.mount b.MountLabel with
      | .error e => .mountingContainer n b.Container e :: loopFailures env rest
      | .ok _ => loopFailures env rest

/-! ## A closed-form description of the explicit-target loop

The loop threads `(st, lastError)` through the targets.  The three
functions below compute, directly from the collaborators' answers, the
events it appends, the `jsonMounts` entries it accumulates, and the
pending error it ends with; `mountLoop_eq` proves the correspondence. -/

/-- The events the explicit-target loop appends for `names`, starting
with pending error `last`. -/
def loopTrace (env : Env) (m j : Bool) : List String → Option CmdErr → List Ev
  | [], _ => []
  | n :: rest, last =>
    match env.openBuilder n with
    | .error e =>
      [Ev.callOpenBuilder n] ++ (last.map Ev.errPrint).toList
        ++ loopTrace env m j rest (some (.readingContainer n e))
    | .ok b =>
      match b.mount b.MountLabel with
      | .error e =>
        [Ev.callOpenBuilder n, Ev.callMount b.Container b.MountLabel]
          ++ (last.map Ev.errPrint).toList
          ++ loopTrace env m j rest (some (.mountingContainer n b.Container e))
      | .ok mp =>
        [Ev.callOpenBuilder n, Ev.callMount b.Container b.MountLabel]
          ++ (if j then [] else [Ev.outLine (if m then n ++ " " ++ mp else mp)])
          ++ loopTrace env m j rest last

/-- The pending error the explicit-target loop ends with.  It does not
depend on the output mode. -/
def loopLast (env : Env) : List String → Option CmdErr → Option CmdErr
  | [], last => last
  | n :: rest, last =>
    match env.openBuilder n with
    | .error e => loopLast env rest (some (.readingContainer n e))
    | .ok b =>
      match b.mount b.MountLabel with
      | .error e => loopLast env rest (some (.mountingContainer n b.Container e))
      | .ok _ => loopLast env rest last

/-- The `jsonMounts` entries the explicit-target loop accumulates. -/
def loopMounts (env : Env) (m j : Bool) : List String → List jsonMount
  | [] => []
  | n :: rest =>
    match env.openBuilder n with
    | .error _ => loopMounts env m j rest
    | .ok b =>
      match b.mount b.MountLabel with
      | .error _ => loopMounts env m j rest
      | .ok mp =>
        (if j then [if m then (⟨n, mp⟩ : jsonMount) else ⟨"", mp⟩] else [])
          ++ loopMounts env m j rest

/-! ## Concrete fixtures used by the closed witness statements -/

/-- A builder whose mount succeeds at `/mB`. -/
def bldB : Builder := ⟨"cidB", "lblB", "/mB", fun _ => .ok "/mB", .ok true⟩

/-- A builder whose mount operation fails. -/
def bldC : Builder := ⟨"cidC", "lblC", "/mC", fun _ => .error "boomC", .ok false⟩

/-- A currently mounted builder. -/
def bld1 : Builder := ⟨"cid1", "lbl1", "/m1", fun _ => .ok "/m1", .ok true⟩

/-- A builder that is not currently mounted. -/
def bld2 : Builder := ⟨"cid2", "lbl2", "/m2", fun _ => .ok "/m2", .ok false⟩

/-- A builder whose mounted-query fails. -/
def bldQ : Builder := ⟨"cidQ", "lblQ", "/mQ", fun _ => .ok "/mQ", .error "qfail"⟩

/-- A concrete environment: rootful, overlay driver; target "A" fails
resolution, "B" mounts at /mB, "C" resolves but fails to mount. -/
def baseEnv : Env := ⟨0, fun _ => .ok (), .ok ⟨"overlay"⟩,
  fun n =>
    if n = "A" then .error "noA"
    else if n = "B" then .ok bldB
    else if n = "C" then .ok bldC
    else .error "unknown container",
  .ok [bld1, bld2]⟩

/-! ## Branch unfolding lemmas -/

theorem mountCmd_explicit (env : Env) (store : Store) (args : List String) (json : Bool)
    (hv : env.verifyFlagsArgsOrder args = .ok ())
    (hs : env.getStore = .ok store)
    (hlen : 0 < args.length)
    (hgate : (env.euid != 0 && store.GraphDriverName != "vfs") = false) :
    mountCmd env args json =
      finishJSON json
        (mountLoop env (decide (1 < args.length)) json args St.init none).1
        (mountLoop env (decide (1 < args.length)) json args St.init none).2 := by
  unfold mountCmd
  rw [hv, hs]
  simp [hlen, hgate]

theorem mountCmd_noargs_err (env : Env) (store : Store) (json : Bool)
    (bs : List Builder) (st : St) (e : CmdErr)
    (hv : env.verifyFlagsArgsOrder [] = .ok ())
    (hs : env.getStore = .ok store)
    (hbs : env.openBuilders = .ok bs)
    (hml : mountedLoop json bs St.init = (st, some e)) :
    mountCmd env [] json = (st, some e) := by
  unfold mountCmd
  rw [hv, hs, hbs]
  simp [hml]

theorem mountCmd_noargs_ok (env : Env) (store : Store) (json : Bool)
    (bs : List Builder) (st : St)
    (hv : env.verifyFlagsArgsOrder [] = .ok ())
    (hs : env.getStore = .ok store)
    (hbs : env.openBuilders = .ok bs)
    (hml : mountedLoop json bs St.init = (st, none)) :
    mountCmd env [] json = finishJSON json st none := by
  unfold mountCmd
  rw [hv, hs, hbs]
  simp [hml]

/-! ## Trace algebra -/

theorem errPrints_append (a b : List Ev) :
    errPrints (a ++ b) = errPrints a ++ errPrints b := by
  induction a with
  | nil => rfl
  | cons x rest ih => cases x <;> simp [errPrints, ih]

theorem errPrints_emitLast (st : St) (last : Option CmdErr) :
    errPrints (emitLast st last).trace = errPrints st.trace ++ last.toList := by
  cases last <;> simp [emitLast, errPrints_append, errPrints]

theorem jsonMounts_emitLast (st : St) (last : Option CmdErr) :
    (emitLast st last).jsonMounts = st.jsonMounts := by
  cases last <;> simp [emitLast]

theorem eraseOut_append (a b : List Ev) :
    eraseOut (a ++ b) = eraseOut a ++ eraseOut b := by
  simp [eraseOut, List.filter_append]

theorem errPrints_eraseOut (t : List Ev) :
    errPrints (eraseOut t) = errPrints t := by
  induction t with
  | nil => rfl
  | cons x rest ih => cases x <;> simp [eraseOut, isOutLine, errPrints, List.filter] at ih ⊢ <;> simp [ih, errPrints]

theorem mountLoop_eq (env : Env) (m j : Bool) :
    ∀ (names : List String) (st : St) (last : Option CmdErr),
      mountLoop env m j names st last =
        ({ trace := st.trace ++ loopTrace env m j names last,
           jsonMounts := st.jsonMounts ++ loopMounts env m j names },
         loopLast env names last) := by
  intro names
  induction names with
  | nil => intro st last; simp [mountLoop, loopTrace, loopMounts, loopLast]
  | cons n rest ih =>
    intro st last
    cases h : env.openBuilder n with
    | error e =>
      simp only [mountLoop, loopTrace, loopMounts, loopLast, h]
      rw [ih]
      cases last <;> simp [emitLast]
    | ok b =>
      cases hm : b.mount b.MountLabel with
      | error e =>
        simp only [mountLoop, loopTrace, loopMounts, loopLast, h, hm]
        rw [ih]
        cases last <;> simp [emitLast]
      | ok mp =>
        simp only [mountLoop, loopTrace, loopMounts, loopLast, h, hm]
        cases m <;> cases j <;> (rw [ih]; simp)

theorem targetMount_isSome (env : Env) (n : String)
    (h : (targetMount env n).isSome) :
    ∃ b mp, env.openBuilder n = .ok b ∧ b.mount b.MountLabel = .ok mp ∧
      targetMount env n = some mp := by
  cases h1 : env.openBuilder n with
  | error e => simp [targetMount, h1] at h
  | ok b =>
    cases h2 : b.mount b.MountLabel with
    | error e => simp [targetMount, h1, h2] at h
    | ok mp => exact ⟨b, mp, rfl, h2, by simp [targetMount, h1, h2]⟩

theorem loopTrace_failures (env : Env) (m j : Bool) :
    ∀ (names : List String) (last : Option CmdErr),
      errPrints (loopTrace env m j names last) ++ (loopLast env names last).toList
        = last.toList ++ loopFailures env names := by
  intro names
  induction names with
  | nil => intro last; simp [loopTrace, loopLast, loopFailures, errPrints]
  | cons n rest ih =>
    intro last
    cases h : env.openBuilder n with
    | error e =>
      simp only [loopTrace, loopLast, loopFailures, h]
      cases last <;> simp [errPrints_append, errPrints, ih]
    | ok b =>
      cases hm : b.mount b.MountLabel with
      | error e =>
        simp only [loopTrace, loopLast, loopFailures, h, hm]
        cases last <;> simp [errPrints_append, errPrints, ih]
      | ok mp =>
        simp only [loopTrace, loopLast, loopFailures, h, hm]
        cases j <;> simp [errPrints_append, errPrints, ih]

theorem loopTrace_json_eraseOut (env : Env) (m : Bool) :
    ∀ (names : List String) (last : Option CmdErr),
      loopTrace env m true names last = eraseOut (loopTrace env m false names last) := by
  intro names
  induction names with
  | nil => intro last; simp [loopTrace, eraseOut]
  | cons n rest ih =>
    intro last
    cases h : env.openBuilder n with
    | error e =>
      simp only [loopTrace, h]
      cases last <;>
        simp [eraseOut_append, eraseOut, isOutLine, List.filter_cons, ih]
    | ok b =>
      cases hm : b.mount b.MountLabel with
      | error e =>
        simp only [loopTrace, h, hm]
        cases last <;>
          simp [eraseOut_append, eraseOut, isOutLine, List.filter_cons, ih]
      | ok mp =>
        simp only [loopTrace, h, hm]
        cases m <;>
          simp [eraseOut_append, eraseOut, isOutLine, List.filter_cons, ih]

theorem outLine_not_mem_eraseOut (t : List Ev) (s : String) :
    Ev.outLine s ∉ eraseOut t := by
  intro hmem
  have := List.of_mem_filter hmem
  simp [isOutLine] at this

theorem loopLast_all_success (env : Env) :
    ∀ (names : List String), (∀ n ∈ names, (targetMount env n).isSome) →
      ∀ last, loopLast env names last = last := by
  intro names
  induction names with
  | nil => intro _ last; simp [loopLast]
  | cons n rest ih =>
    intro hall last
    obtain ⟨b, mp, h, hm, _⟩ := targetMount_isSome env n (hall n (by simp))
    simp only [loopLast, h, hm]
    exact ih (fun x hx => hall x (by simp [hx])) last

theorem loopMounts_all_success (env : Env) (m : Bool) :
    ∀ (names : List String), (∀ n ∈ names, (targetMount env n).isSome) →
      loopMounts env m true names
        = names.map (fun n => ⟨if m then n else "", mpOfD env n⟩) := by
  intro names
  induction names with
  | nil => intro _; simp [loopMounts]
  | cons n rest ih =>
    intro hall
    obtain ⟨b, mp, h, hm, hmt⟩ := targetMount_isSome env n (hall n (by simp))
    have hmp : mpOfD env n = mp := by simp [mpOfD, hmt]
    simp only [loopMounts, h, hm, List.map_cons, hmp]
    rw [ih (fun x hx => hall x (by simp [hx]))]
    cases m <;> simp

theorem loopMounts_all_fail (env : Env) (m j : Bool) :
    ∀ (names : List String), (∀ n ∈ names, targetMount env n = none) →
      loopMounts env m j names = [] := by
  intro names
  induction names with
  | nil => intro _; simp [loopMounts]
  | cons n rest ih =>
    intro hall
    have hn := hall n (by simp)
    have hrest := ih (fun x hx => hall x (by simp [hx]))
    cases h : env.openBuilder n with
    | error e => simp only [loopMounts, h, hrest]
    | ok b =>
      cases hm : b.mount b.MountLabel with
      | error e => simp only [loopMounts, h, hm, hrest]
      | ok mp => simp [targetMount, h, hm] at hn

/-! ## Lemmas about the no-args (list-all-mounted) loop -/

theorem mountedLoop_append (j : Bool) :
    ∀ (xs ys : List Builder) (st : St),
      mountedLoop j (xs ++ ys) st =
        match mountedLoop j xs st with
        | (st', some e) => (st', some e)
        | (st', none) => mountedLoop j ys st' := by
  intro xs
  induction xs with
  | nil => intro ys st; simp [mountedLoop]
  | cons b rest ih =>
    intro ys st
    simp only [List.cons_append, mountedLoop]
    cases hb : b.mounted with
    | error e => simp
    | ok r => cases r <;> simp [ih]

theorem mountedLoop_all_answered (j : Bool) :
    ∀ (bs : List Builder) (st : St), (∀ b ∈ bs, ∃ r, b.mounted = .ok r) →
      (mountedLoop j bs st).2 = none := by
  intro bs
  induction bs with
  | nil => intro st _; simp [mountedLoop]
  | cons b rest ih =>
    intro st hall
    obtain ⟨r, hr⟩ := hall b (by simp)
    have hrest := fun x hx => hall x (List.mem_cons_of_mem b hx)
    cases r <;> simp [mountedLoop, hr] <;> exact ih _ hrest

theorem mountedLoop_json_no_outLine :
    ∀ (bs : List Builder) (st : St), (∀ s, Ev.outLine s ∉ st.trace) →
      ∀ s, Ev.outLine s ∉ (mountedLoop true bs st).1.trace := by
  intro bs
  induction bs with
  | nil => intro st h s; simpa [mountedLoop] using h s
  | cons b rest ih =>
    intro st h s
    have h' : ∀ s', Ev.outLine s' ∉ st.trace ++ [Ev.callMounted b.Container] := by
      intro s'
      simp [h s']
    cases hb : b.mounted with
    | error e => simp only [mountedLoop, hb]; exact h' s
    | ok r =>
      cases r with
      | false => simp only [mountedLoop, hb]; exact ih _ (fun s' => h' s') s
      | true =>
        simp only [mountedLoop, hb, if_true]
        exact ih _ (fun s' => by simpa using h' s') s

theorem mountedLoop_all_unmounted (j : Bool) :
    ∀ (bs : List Builder) (st : St), (∀ b ∈ bs, b.mounted = .ok false) →
      mountedLoop j bs st =
        ({ st with trace := st.trace ++ bs.map (fun b => .callMounted b.Container) }, none) := by
  intro bs
  induction bs with
  | nil => intro st _; simp [mountedLoop]
  | cons b rest ih =>
    intro st hall
    have hb := hall b (by simp)
    simp only [mountedLoop, hb]
    rw [ih _ (fun x hx => hall x (List.mem_cons_of_mem b hx))]
    simp

theorem finishJSON_snd (j : Bool) (st : St) (last : Option CmdErr) :
    (finishJSON j st last).2 = last := by
  cases j <;> simp [finishJSON]

theorem finishJSON_jsonMounts (j : Bool) (st : St) (last : Option CmdErr) :
    (finishJSON j st last).1.jsonMounts = st.jsonMounts := by
  cases j <;> simp [finishJSON]

theorem mountedLoop_raw (j : Bool) :
    ∀ (bs : List Builder) (st : St),
      (mountedLoop j bs st).2 = none
        ∨ ∃ e, (mountedLoop j bs st).2 = some (.raw e) := by
  intro bs
  induction bs with
  | nil => intro st; left; simp [mountedLoop]
  | cons b rest ih =>
    intro st
    cases hb : b.mounted with
    | error e => right; exact ⟨e, by simp [mountedLoop, hb]⟩
    | ok r => cases r <;> simp only [mountedLoop, hb] <;> exact ih _

/-! ## Claim theorems -/

/-- C1: for a non-empty target list, when the effective uid is non-zero
and the store's active graph driver is not "vfs", `mountCmd` fails at
once with the unsupported-mode error naming the active driver, with no
resolution or mount attempt (an empty trace, nothing printed, nothing
buffered); when the target list is empty this check is skipped entirely,
so the unsupported-mode error can never be the result. -/
theorem mount_rootless_gate (env : Env) (store : Store) (args : List String) (json : Bool)
    (hv : env.verifyFlagsArgsOrder args = .ok ())
    (hs : env.getStore = .ok store) :
    (0 < args.length → env.euid ≠ 0 → store.GraphDriverName ≠ "vfs" →
      mountCmd env args json = (St.init, some (.unsupportedMode store.GraphDriverName)))
    ∧ (args = [] → ∀ d, (mountCmd env args json).2 ≠ some (.unsupportedMode d)) := by
  constructor
  · intro hlen hu hd
    unfold mountCmd
    rw [hv, hs]
    have hb : (env.euid != 0 && store.GraphDriverName != "vfs") = true := by
      simp [hu, hd]
    simp [hlen, hb]
  · rintro rfl d
    unfold mountCmd
    rw [hv, hs]
    simp only [List.length_nil, lt_irrefl, if_false]
    cases hbs : env.openBuilders with
    | error e => simp
    | ok bs =>
      rcases hml : mountedLoop json bs St.init with ⟨st, r⟩
      cases r with
      | none => simp [hml, finishJSON_snd]
      | some e =>
        rcases mountedLoop_raw json bs St.init with hr | ⟨e', hr⟩
        · rw [hml] at hr; simp at hr
        · rw [hml] at hr
          simp only [hml]
          simp at hr
          simp [hr]

/-- Witness for `mount_rootless_gate`: a concrete rootless (euid 1000)
invocation over the overlay driver with one explicit target. -/
theorem mount_rootless_gate_witness :
    mountCmd { baseEnv with euid := 1000 } ["B"] false
      = (St.init, some (.unsupportedMode "overlay")) :=
  (mount_rootless_gate { baseEnv with euid := 1000 } ⟨"overlay"⟩ ["B"] false rfl rfl).1
    (by decide) (by decide) (by decide)

/-- C3: once the explicit-target loop runs, the command's return value is
the loop's final pending failure record (`none` when no failure remains);
when every explicit target resolves and mounts, the return value is
`none` and the collected Mount Results are exactly one per target, in
request order; a no-args run whose queries all answer also returns
`none`. -/
theorem mount_return_last_pending (env : Env) (store : Store) (args : List String) (json : Bool)
    (hv : env.verifyFlagsArgsOrder args = .ok ())
    (hs : env.getStore = .ok store)
    (hgate : (env.euid != 0 && store.GraphDriverName != "vfs") = false) :
    (0 < args.length →
      (mountCmd env args json).2 = loopLast env args none)
    ∧ (0 < args.length → (∀ n ∈ args, (targetMount env n).isSome) →
      (mountCmd env args json).2 = none ∧
      (mountCmd env args true).1.jsonMounts
        = args.map (fun n => ⟨if 1 < args.length then n else "", mpOfD env n⟩))
    ∧ (args = [] → ∀ bs, env.openBuilders = .ok bs →
        (∀ b ∈ bs, ∃ r, b.mounted = .ok r) →
      (mountCmd env args json).2 = none) := by
  refine ⟨?_, ?_, ?_⟩
  · intro hlen
    rw [mountCmd_explicit env store args json hv hs hlen hgate, mountLoop_eq,
      finishJSON_snd]
  · intro hlen hall
    constructor
    · rw [mountCmd_explicit env store args json hv hs hlen hgate, mountLoop_eq,
        finishJSON_snd]
      exact loopLast_all_success env args hall none
    · rw [mountCmd_explicit env store args true hv hs hlen hgate, mountLoop_eq,
        finishJSON_jsonMounts]
      rw [loopMounts_all_success env (decide (1 < args.length)) args hall]
      simp [St.init]
  · rintro rfl bs hbs hall
    rcases hml : mountedLoop json bs St.init with ⟨st, r⟩
    have hr := mountedLoop_all_answered json bs St.init hall
    rw [hml] at hr
    simp at hr
    subst hr
    rw [mountCmd_noargs_ok env store json bs st hv hs hbs hml, finishJSON_snd]

/-- Witness for `mount_return_last_pending`: the all-succeed batch
["B", "B"] returns no error and collects both results in order. -/
theorem mount_return_last_pending_witness :
    (mountCmd baseEnv ["B", "B"] true).2 = none
    ∧ (mountCmd baseEnv ["B", "B"] true).1.jsonMounts
        = [⟨"B", "/mB"⟩, ⟨"B", "/mB"⟩] := by
  have h := (mount_return_last_pending baseEnv ⟨"overlay"⟩ ["B", "B"] true rfl rfl rfl).2.1
    (by decide) (by intro n hn; fin_cases hn <;> decide)
  exact ⟨h.1, by rw [h.2]; decide⟩

/-- C2 counterexample: in the concrete batch ["A", "B", "C"] (A fails
resolution, B succeeds, C fails mount) no diagnostic line for A is
printed before B's success line — the code prints A's pending failure
only when C's later failure supersedes it, which happens after B's
line. -/
theorem mount_supersede_order_counterexample :
    ¬ ∃ i j : Fin (mountCmd baseEnv ["A", "B", "C"] false).1.trace.length,
        i.val < j.val
        ∧ (mountCmd baseEnv ["A", "B", "C"] false).1.trace.get i
            = .errPrint (.readingContainer "A" "noA")
        ∧ (mountCmd baseEnv ["A", "B", "C"] false).1.trace.get j
            = .outLine ("B" ++ " " ++ "/mB") := by
  decide

/-- C2 (amended): the loop keeps at most one pending failure, printing
the superseded one at the moment a newer failure replaces it: for a
batch [A, B, C] where A fails resolution, B succeeds and C fails mount,
exactly one diagnostic line (for A) is printed, and it appears after
B's success line, at C's failure; the returned error is C's. -/
theorem mount_supersede_print (env : Env) (store : Store)
    (nA nB nC eA eC mpB : String) (bB bC : Builder)
    (hv : env.verifyFlagsArgsOrder [nA, nB, nC] = .ok ())
    (hs : env.getStore = .ok store)
    (hgate : (env.euid != 0 && store.GraphDriverName != "vfs") = false)
    (hA : env.openBuilder nA = .error eA)
    (hB : env.openBuilder nB = .ok bB) (hmB : bB.mount bB.MountLabel = .ok mpB)
    (hC : env.openBuilder nC = .ok bC) (hmC : bC.mount bC.MountLabel = .error eC) :
    mountCmd env [nA, nB, nC] false
      = (⟨[.callOpenBuilder nA,
           .callOpenBuilder nB, .callMount bB.Container bB.MountLabel,
           .outLine (nB ++ " " ++ mpB),
           .callOpenBuilder nC, .callMount bC.Container bC.MountLabel,
           .errPrint (.readingContainer nA eA)], []⟩,
         some (.mountingContainer nC bC.Container eC)) := by
  rw [mountCmd_explicit env store [nA, nB, nC] false hv hs (by simp) hgate, mountLoop_eq]
  simp [loopTrace, loopLast, loopMounts, hA, hB, hmB, hC, hmC, finishJSON, St.init]

/-- Witness for `mount_supersede_print` at the concrete ["A", "B", "C"]
batch of `baseEnv`. -/
theorem mount_supersede_print_witness :
    mountCmd baseEnv ["A", "B", "C"] false
      = (⟨[.callOpenBuilder "A",
           .callOpenBuilder "B", .callMount "cidB" "lblB",
           .outLine "B /mB",
           .callOpenBuilder "C", .callMount "cidC" "lblC",
           .errPrint (.readingContainer "A" "noA")], []⟩,
         some (.mountingContainer "C" "cidC" "boomC")) :=
  mount_supersede_print baseEnv ⟨"overlay"⟩ "A" "B" "C" "noA" "boomC" "/mB" bldB bldC
    rfl rfl rfl rfl rfl rfl rfl rfl

/-- C4: the identifier field of a successful Mount Result is populated
iff more than one explicit target was requested or the no-args branch
ran: a single explicit target yields `Container = ""` (dropped by
`omitempty` in JSON, bare mount point in text); a multi-target batch
records each request identifier; the no-args branch always records the
builder's container; a rendered element contains the `container` key
exactly when the field is non-empty. -/
theorem mount_identifier_presence
    (envs : Env) (stores : Store) (n mp : String) (b : Builder)
    (hv1 : envs.verifyFlagsArgsOrder [n] = .ok ())
    (hs1 : envs.getStore = .ok stores)
    (hgate1 : (envs.euid != 0 && stores.GraphDriverName != "vfs") = false)
    (hb : envs.openBuilder n = .ok b) (hm : b.mount b.MountLabel = .ok mp)
    (envm : Env) (storem : Store) (args : List String)
    (hv2 : envm.verifyFlagsArgsOrder args = .ok ())
    (hs2 : envm.getStore = .ok storem)
    (hgate2 : (envm.euid != 0 && storem.GraphDriverName != "vfs") = false)
    (hmulti : 1 < args.length)
    (hall : ∀ x ∈ args, (targetMount envm x).isSome)
    (envl : Env) (storel : Store) (bl : Builder)
    (hv3 : envl.verifyFlagsArgsOrder [] = .ok ())
    (hs3 : envl.getStore = .ok storel)
    (hbs : envl.openBuilders = .ok [bl])
    (hmounted : bl.mounted = .ok true) :
    ((mountCmd envs [n] true).1.jsonMounts = [⟨"", mp⟩]
      ∧ (mountCmd envs [n] false).1.trace
          = [.callOpenBuilder n, .callMount b.Container b.MountLabel, .outLine mp])
    ∧ (mountCmd envm args true).1.jsonMounts
        = args.map (fun x => ⟨x, mpOfD envm x⟩)
    ∧ (mountCmd envl [] true).1.jsonMounts = [⟨bl.Container, bl.MountPoint⟩]
    ∧ (∀ p, marshalJsonMount ⟨"", p⟩
        = "    \x7b\n        \"mountPoint\": " ++ jsonQuote p ++ "\n    \x7d")
    ∧ (∀ c p, c ≠ "" → marshalJsonMount ⟨c, p⟩
        = "    \x7b\n        \"container\": " ++ jsonQuote c
          ++ ",\n        \"mountPoint\": " ++ jsonQuote p ++ "\n    \x7d") := by
  refine ⟨⟨?_, ?_⟩, ?_, ?_, ?_, ?_⟩
  · rw [mountCmd_explicit envs stores [n] true hv1 hs1 (by simp) hgate1, mountLoop_eq,
      finishJSON_jsonMounts]
    simp [loopMounts, hb, hm, St.init]
  · rw [mountCmd_explicit envs stores [n] false hv1 hs1 (by simp) hgate1, mountLoop_eq]
    simp [finishJSON, loopTrace, hb, hm, St.init]
  · rw [mountCmd_explicit envm storem args true hv2 hs2 (by omega) hgate2, mountLoop_eq,
      finishJSON_jsonMounts]
    rw [loopMounts_all_success envm (decide (1 < args.length)) args hall]
    simp [St.init, hmulti]
  · have hml : mountedLoop true [bl] St.init
        = (⟨[.callMounted bl.Container], [⟨bl.Container, bl.MountPoint⟩]⟩, none) := by
      simp [mountedLoop, hmounted, St.init]
    rw [mountCmd_noargs_ok envl storel true [bl] _ hv3 hs3 hbs hml, finishJSON_jsonMounts]
  · intro p; simp [marshalJsonMount]
  · intro c p hc; simp [marshalJsonMount, hc]

/-- Witness for `mount_identifier_presence` at concrete single-target,
two-target and no-args invocations. -/
theorem mount_identifier_presence_witness :
    (mountCmd baseEnv ["B"] true).1.jsonMounts = [⟨"", "/mB"⟩]
    ∧ (mountCmd baseEnv ["B", "B"] true).1.jsonMounts = [⟨"B", "/mB"⟩, ⟨"B", "/mB"⟩]
    ∧ (mountCmd { baseEnv with openBuilders := .ok [bld1] } [] true).1.jsonMounts
        = [⟨"cid1", "/m1"⟩]
    ∧ marshalJsonMount ⟨"", "/mB"⟩
        = "    \x7b\n        \"mountPoint\": \"/mB\"\n    \x7d"
    ∧ marshalJsonMount ⟨"cid1", "/m1"⟩
        = "    \x7b\n        \"container\": \"cid1\",\n        \"mountPoint\": \"/m1\"\n    \x7d" := by
  have h := mount_identifier_presence baseEnv ⟨"overlay"⟩ "B" "/mB" bldB
    rfl rfl rfl rfl rfl
    baseEnv ⟨"overlay"⟩ ["B", "B"] rfl rfl rfl (by decide)
    (by intro x hx; fin_cases hx <;> decide)
    { baseEnv with openBuilders := .ok [bld1] } ⟨"overlay"⟩ bld1 rfl rfl rfl rfl
  refine ⟨h.1.1, ?_, h.2.2.1, ?_, ?_⟩
  · rw [h.2.1]; decide
  · rw [h.2.2.2.1 "/mB"]; decide
  · rw [h.2.2.2.2 "cid1" "/m1" (by decide)]; decide

/-- C5 counterexample: a concrete JSON-mode run that reaches rendering
with zero collected results writes the document `null`, which is not the
two-character empty-array document claimed. -/
theorem mount_json_empty_counterexample :
    (mountCmd { baseEnv with openBuilders := .ok ([] : List Builder) } [] true).1.jsonMounts
        = []
    ∧ (mountCmd { baseEnv with openBuilders := .ok ([] : List Builder) } [] true).1.trace
        = [.outLine "null"]
    ∧ "null" ≠ "[]" :=
  ⟨by decide, by decide, by decide⟩

/-- C5 (amended): a JSON-mode invocation that reaches the rendering step
with zero collected Mount Results writes exactly the JSON `null`
document — Go marshals the still-nil `jsonMounts` slice as `null` — not
the empty array and not nothing: shown for a completed no-args run with
nothing mounted and for an explicit batch in which every target fails. -/
theorem mount_json_zero_results_null (env : Env) (store : Store) (bs : List Builder)
    (args : List String)
    (hv0 : env.verifyFlagsArgsOrder [] = .ok ())
    (hs : env.getStore = .ok store)
    (hbs : env.openBuilders = .ok bs)
    (hnone : ∀ b ∈ bs, b.mounted = .ok false)
    (hv1 : env.verifyFlagsArgsOrder args = .ok ())
    (hgate : (env.euid != 0 && store.GraphDriverName != "vfs") = false)
    (hlen : 0 < args.length)
    (hfail : ∀ n ∈ args, targetMount env n = none) :
    mountCmd env [] true
      = (⟨bs.map (fun b => .callMounted b.Container) ++ [.outLine "null"], []⟩, none)
    ∧ (mountCmd env args true).1.jsonMounts = []
    ∧ ∃ L, (mountCmd env args true).1.trace = L ++ [.outLine "null"] := by
  refine ⟨?_, ?_, ?_⟩
  · have hml := mountedLoop_all_unmounted true bs St.init hnone
    rw [mountCmd_noargs_ok env store true bs _ hv0 hs hbs hml]
    simp [finishJSON, St.init, marshalIndentJsonMounts]
  · rw [mountCmd_explicit env store args true hv1 hs hlen hgate, mountLoop_eq,
      finishJSON_jsonMounts]
    simp [St.init, loopMounts_all_fail env _ true args hfail]
  · rw [mountCmd_explicit env store args true hv1 hs hlen hgate, mountLoop_eq]
    refine ⟨loopTrace env (decide (1 < args.length)) true args none, ?_⟩
    simp [finishJSON, St.init, loopMounts_all_fail env _ true args hfail,
      marshalIndentJsonMounts]

/-- Witness for `mount_json_zero_results_null`: an enumeration with one
unmounted container, and the failing single-target batch ["A"]. -/
theorem mount_json_zero_results_null_witness :
    mountCmd { baseEnv with openBuilders := .ok [bld2] } [] true
      = (⟨[.callMounted "cid2", .outLine "null"], []⟩, none)
    ∧ (mountCmd { baseEnv with openBuilders := .ok [bld2] } ["A"] true).1.jsonMounts
        = [] := by
  have h := mount_json_zero_results_null { baseEnv with openBuilders := .ok [bld2] }
    ⟨"overlay"⟩ [bld2] ["A"] rfl rfl rfl
    (by intro b hb; fin_cases hb; rfl)
    rfl rfl (by decide) (by intro x hx; fin_cases hx; rfl)
  exact ⟨by rw [h.1]; decide, h.2.1⟩

/-- C6: in the no-args branch, a failing mounted-query on the k-th
enumerated container aborts the run at once: the collaborator error is
returned unchanged, the k-th query is the final event (no later
container is queried or rendered), the result buffer keeps exactly the
first k-1 containers' results, and in JSON mode no stdout line — in
particular no JSON document — is ever written. -/
theorem mount_noargs_hard_stop (env : Env) (store : Store) (json : Bool)
    (pre post : List Builder) (bk : Builder) (e : GoErr)
    (hv : env.verifyFlagsArgsOrder [] = .ok ())
    (hs : env.getStore = .ok store)
    (hbs : env.openBuilders = .ok (pre ++ bk :: post))
    (hpre : ∀ b ∈ pre, ∃ r, b.mounted = .ok r)
    (hk : bk.mounted = .error e) :
    mountCmd env [] json
      = ({ (mountedLoop json pre St.init).1 with
            trace := (mountedLoop json pre St.init).1.trace
              ++ [.callMounted bk.Container] },
         some (.raw e))
    ∧ (json = true → ∀ s, Ev.outLine s ∉ (mountCmd env [] json).1.trace) := by
  rcases hml : mountedLoop json pre St.init with ⟨stp, r⟩
  have hr := mountedLoop_all_answered json pre St.init hpre
  rw [hml] at hr
  simp at hr
  subst hr
  have hstep : mountedLoop json (pre ++ bk :: post) St.init
      = ({ stp with trace := stp.trace ++ [.callMounted bk.Container] }, some (.raw e)) := by
    rw [mountedLoop_append json pre (bk :: post) St.init, hml]
    simp [mountedLoop, hk]
  have hcmd := mountCmd_noargs_err env store json _ _ _ hv hs hbs hstep
  constructor
  · rw [hcmd]
  · intro hj s
    subst hj
    rw [hcmd]
    have hout := mountedLoop_json_no_outLine pre St.init (by intro s'; simp [St.init]) s
    rw [hml] at hout
    simp at hout ⊢
    exact hout

/-- Witness for `mount_noargs_hard_stop`: three enumerated containers,
the second of which fails its mounted-query. -/
theorem mount_noargs_hard_stop_witness :
    mountCmd { baseEnv with openBuilders := .ok [bld1, bldQ, bld2] } [] true
      = (⟨[.callMounted "cid1", .callMounted "cidQ"], [⟨"cid1", "/m1"⟩]⟩,
         some (.raw "qfail")) := by
  have h := mount_noargs_hard_stop { baseEnv with openBuilders := .ok [bld1, bldQ, bld2] }
    ⟨"overlay"⟩ true [bld1] [bld2] bldQ "qfail" rfl rfl rfl
    (by intro b hb; fin_cases hb; exact ⟨true, rfl⟩) rfl
  rw [h.1]
  decide

/-- C7: every failure recorded in the explicit-target loop is accounted
for — the stderr diagnostics, in order, followed by the returned error
are exactly the loop's failure records, so none is lost; the final JSON
serialization step cannot drop one since `json.MarshalIndent` is total
for these string-only structs. -/
theorem mount_failures_accounted (env : Env) (store : Store) (args : List String) (json : Bool)
    (hv : env.verifyFlagsArgsOrder args = .ok ())
    (hs : env.getStore = .ok store)
    (hgate : (env.euid != 0 && store.GraphDriverName != "vfs") = false)
    (hlen : 0 < args.length) :
    errPrints (mountCmd env args json).1.trace ++ ((mountCmd env args json).2).toList
      = loopFailures env args := by
  rw [mountCmd_explicit env store args json hv hs hlen hgate, mountLoop_eq]
  have h := loopTrace_failures env (decide (1 < args.length)) json args none
  cases json with
  | false =>
    simp only [finishJSON, Bool.false_eq_true, if_false, St.init, List.nil_append]
    simpa using h
  | true =>
    simp only [finishJSON, if_true, St.init, List.nil_append]
    rw [errPrints_append]
    simp only [errPrints, List.append_nil]
    simpa using h

/-- Witness for `mount_failures_accounted`: in the ["A", "B", "C"] batch
the printed diagnostic (A's) plus the returned error (C's) are exactly
the two failures the loop recorded. -/
theorem mount_failures_accounted_witness :
    errPrints (mountCmd baseEnv ["A", "B", "C"] false).1.trace
        ++ ((mountCmd baseEnv ["A", "B", "C"] false).2).toList
      = [.readingContainer "A" "noA", .mountingContainer "C" "cidC" "boomC"] := by
  rw [mount_failures_accounted baseEnv ⟨"overlay"⟩ ["A", "B", "C"] false rfl rfl rfl
    (by decide)]
  decide

/-- C8: the orchestrator caches nothing and reports exactly the mount
point the collaborator returns, so with an idempotent collaborator —
repeated mounts of the already-mounted target yield the same path — two
invocations of the command over that target report the same mount point
in their Mount Results. -/
theorem mount_idempotent_report (env1 env2 : Env) (store1 store2 : Store)
    (name mp : String) (b1 b2 : Builder)
    (hv1 : env1.verifyFlagsArgsOrder [name] = .ok ())
    (hs1 : env1.getStore = .ok store1)
    (hgate1 : (env1.euid != 0 && store1.GraphDriverName != "vfs") = false)
    (hb1 : env1.openBuilder name = .ok b1)
    (hm1 : b1.mount b1.MountLabel = .ok mp)
    (hv2 : env2.verifyFlagsArgsOrder [name] = .ok ())
    (hs2 : env2.getStore = .ok store2)
    (hgate2 : (env2.euid != 0 && store2.GraphDriverName != "vfs") = false)
    (hb2 : env2.openBuilder name = .ok b2)
    (hm2 : b2.mount b2.MountLabel = .ok mp) :
    (mountCmd env1 [name] true).1.jsonMounts = [⟨"", mp⟩]
    ∧ (mountCmd env2 [name] true).1.jsonMounts = [⟨"", mp⟩]
    ∧ (mountCmd env1 [name] true).1.jsonMounts.map jsonMount.MountPoint
        = (mountCmd env2 [name] true).1.jsonMounts.map jsonMount.MountPoint := by
  have h1 : (mountCmd env1 [name] true).1.jsonMounts = [⟨"", mp⟩] := by
    rw [mountCmd_explicit env1 store1 [name] true hv1 hs1 (by simp) hgate1, mountLoop_eq,
      finishJSON_jsonMounts]
    simp [loopMounts, hb1, hm1, St.init]
  have h2 : (mountCmd env2 [name] true).1.jsonMounts = [⟨"", mp⟩] := by
    rw [mountCmd_explicit env2 store2 [name] true hv2 hs2 (by simp) hgate2, mountLoop_eq,
      finishJSON_jsonMounts]
    simp [loopMounts, hb2, hm2, St.init]
  exact ⟨h1, h2, by rw [h1, h2]⟩

/-- Witness for `mount_idempotent_report`: two identical invocations
mounting "B" both report /mB. -/
theorem mount_idempotent_report_witness :
    (mountCmd baseEnv ["B"] true).1.jsonMounts = [⟨"", "/mB"⟩]
    ∧ (mountCmd baseEnv ["B"] true).1.jsonMounts = [⟨"", "/mB"⟩]
    ∧ (mountCmd baseEnv ["B"] true).1.jsonMounts.map jsonMount.MountPoint
        = (mountCmd baseEnv ["B"] true).1.jsonMounts.map jsonMount.MountPoint :=
  mount_idempotent_report baseEnv baseEnv ⟨"overlay"⟩ ⟨"overlay"⟩ "B" "/mB" bldB bldB
    rfl rfl rfl rfl rfl rfl rfl rfl rfl rfl

/-- C9: in JSON mode the superseded-failure diagnostics are written
incrementally during the loop: the JSON run's trace is exactly the text
run's trace with its stdout lines removed followed by the one buffered
JSON document line at the end, and its stderr diagnostics coincide with
text mode's. -/
theorem mount_json_diagnostics_incremental (env : Env) (store : Store) (args : List String)
    (hv : env.verifyFlagsArgsOrder args = .ok ())
    (hs : env.getStore = .ok store)
    (hgate : (env.euid != 0 && store.GraphDriverName != "vfs") = false)
    (hlen : 0 < args.length) :
    (mountCmd env args true).1.trace
      = eraseOut (mountCmd env args false).1.trace
        ++ [.outLine (marshalIndentJsonMounts (mountCmd env args true).1.jsonMounts)]
    ∧ errPrints (mountCmd env args true).1.trace
      = errPrints (mountCmd env args false).1.trace := by
  rw [mountCmd_explicit env store args true hv hs hlen hgate,
      mountCmd_explicit env store args false hv hs hlen hgate, mountLoop_eq, mountLoop_eq]
  constructor
  · simp only [finishJSON, if_true, Bool.false_eq_true, if_false, St.init, List.nil_append,
      finishJSON_jsonMounts]
    rw [loopTrace_json_eraseOut]
  · simp only [finishJSON, if_true, Bool.false_eq_true, if_false, St.init, List.nil_append]
    rw [errPrints_append, loopTrace_json_eraseOut, errPrints_eraseOut]
    simp [errPrints]

/-- Witness for `mount_json_diagnostics_incremental` at the concrete
["A", "B", "C"] batch. -/
theorem mount_json_diagnostics_incremental_witness :
    (mountCmd baseEnv ["A", "B", "C"] true).1.trace
      = eraseOut (mountCmd baseEnv ["A", "B", "C"] false).1.trace
        ++ [.outLine (marshalIndentJsonMounts
            (mountCmd baseEnv ["A", "B", "C"] true).1.jsonMounts)]
    ∧ errPrints (mountCmd baseEnv ["A", "B", "C"] true).1.trace
      = errPrints (mountCmd baseEnv ["A", "B", "C"] false).1.trace :=
  mount_json_diagnostics_incremental baseEnv ⟨"overlay"⟩ ["A", "B", "C"]
    rfl rfl rfl (by decide)

/-- C10: in the explicit multi-target branch each Mount Result records
the exact caller-supplied argument string — not the resolved builder's
canonical container identifier — while the no-args branch records the
builder's own container name; with an aliased target the two differ. -/
theorem mount_identifier_provenance (envm : Env) (storem : Store)
    (n1 n2 mp1 mp2 : String) (b1 b2 : Builder)
    (hv : envm.verifyFlagsArgsOrder [n1, n2] = .ok ())
    (hs : envm.getStore = .ok storem)
    (hgate : (envm.euid != 0 && storem.GraphDriverName != "vfs") = false)
    (hb1 : envm.openBuilder n1 = .ok b1) (hm1 : b1.mount b1.MountLabel = .ok mp1)
    (hb2 : envm.openBuilder n2 = .ok b2) (hm2 : b2.mount b2.MountLabel = .ok mp2)
    (halias : b1.Container ≠ n1)
    (envl : Env) (storel : Store) (bl : Builder)
    (hvl : envl.verifyFlagsArgsOrder [] = .ok ())
    (hsl : envl.getStore = .ok storel)
    (hbl : envl.openBuilders = .ok [bl])
    (hml : bl.mounted = .ok true) :
    (mountCmd envm [n1, n2] true).1.jsonMounts.map jsonMount.Container = [n1, n2]
    ∧ (mountCmd envm [n1, n2] true).1.jsonMounts.map jsonMount.Container
        ≠ [b1.Container, n2]
    ∧ (mountCmd envl [] true).1.jsonMounts = [⟨bl.Container, bl.MountPoint⟩] := by
  have hjm : (mountCmd envm [n1, n2] true).1.jsonMounts = [⟨n1, mp1⟩, ⟨n2, mp2⟩] := by
    rw [mountCmd_explicit envm storem [n1, n2] true hv hs (by simp) hgate, mountLoop_eq,
      finishJSON_jsonMounts]
    simp [loopMounts, hb1, hm1, hb2, hm2, St.init]
  refine ⟨by rw [hjm]; simp, ?_, ?_⟩
  · rw [hjm]
    simp only [List.map_cons, List.map_nil]
    intro hcontra
    injection hcontra with h1 _
    exact halias h1.symm
  · have hstep : mountedLoop true [bl] St.init
        = (⟨[.callMounted bl.Container], [⟨bl.Container, bl.MountPoint⟩]⟩, none) := by
      simp [mountedLoop, hml, St.init]
    rw [mountCmd_noargs_ok envl storel true [bl] _ hvl hsl hbl hstep, finishJSON_jsonMounts]

/-- Witness for `mount_identifier_provenance`: the batch ["B", "B"]
records the argument string "B" although the resolved container is
"cidB"; the no-args branch records the builder's "cid1". -/
theorem mount_identifier_provenance_witness :
    (mountCmd baseEnv ["B", "B"] true).1.jsonMounts.map jsonMount.Container = ["B", "B"]
    ∧ (mountCmd baseEnv ["B", "B"] true).1.jsonMounts.map jsonMount.Container
        ≠ ["cidB", "B"]
    ∧ (mountCmd { baseEnv with openBuilders := .ok [bld1] } [] true).1.jsonMounts
        = [⟨"cid1", "/m1"⟩] :=
  mount_identifier_provenance baseEnv ⟨"overlay"⟩ "B" "B" "/mB" "/mB" bldB bldB
    rfl rfl rfl rfl rfl rfl rfl (by decide)
    { baseEnv with openBuilders := .ok [bld1] } ⟨"overlay"⟩ bld1 rfl rfl rfl rfl
